import Mathlib

/-!
Verification of the pbzx chunk codec and the `.pkg` payload pipeline of the
`libarchive-rs` repository against its specification.

The Rust sources `src/pbzx.rs` and `src/pkg.rs` are embedded shallowly:
byte buffers become `List Nat` (each element a byte value), machine
integers become `Nat` with explicit `% 2^64` where overflow matters, and
fallible code returns `Except` / an `Outcome` type that can also record a
Rust panic.  The external XZ codec (`lzma_rs`) and the external archive
engine (libarchive, reached through FFI) are modelled as abstract function
records used at the interface boundary the spec describes in its section 6.
-/

namespace LibarchiveRs

/-- Error kinds of the codec and pipeline.  The Rust code uses
`Error::InvalidArgument(msg)` with distinct message strings; each distinct
error site gets its own constructor here, named after the spec's error
vocabulary. -/
inductive Error where
  /-- "Data too short to be a pbzx stream" -/
  | tooShort
  /-- "Not a pbzx stream (missing magic header)" -/
  | badMagic
  /-- "Chunk data truncated: need .. bytes at offset .., but only .. bytes remain" -/
  | truncatedChunk
  /-- "Failed to decompress XZ chunk" -/
  | codecError
  /-- "Chunk size must be greater than 0" -/
  | invalidChunkSize
  /-- "No Payload entry found in .pkg file" -/
  | missingPayload
  /-- any failure surfaced by the archive-engine collaborator -/
  | containerError
  /-- "... contains null byte" (CString construction in entry setters) -/
  | invalidString
deriving DecidableEq, Repr

/-- Result of running code that can return a value, return a typed error,
or hit a Rust panic (out-of-range slice index / arithmetic overflow). -/
inductive Outcome (α : Type) where
  | ok (val : α)
  | err (e : Error)
  | panicked
deriving DecidableEq, Repr

namespace pbzx

/-- `const PBZX_MAGIC: &[u8; 4] = b"pbzx"` -/
def PBZX_MAGIC : List Nat := [112, 98, 122, 120]

/-- `const CHUNK_FLAG_XZ: u64 = 0x0100_0000` -/
def CHUNK_FLAG_XZ : Nat := 0x01000000

/-- 2^64, the modulus of `u64` / 64-bit `usize` arithmetic -/
def U64_MOD : Nat := 18446744073709551616

/-- `u64::to_be_bytes` of `n as u64`: the eight big-endian bytes of
`n % 2^64`. -/
def u64be (n : Nat) : List Nat :=
  [n / 72057594037927936 % 256, n / 281474976710656 % 256,
   n / 1099511627776 % 256, n / 4294967296 % 256,
   n / 16777216 % 256, n / 65536 % 256, n / 256 % 256, n % 256]

/-- `u64::from_be_bytes(data[off..off+8].try_into().unwrap())`.  Callers in
the source only read at offsets with at least eight bytes remaining. -/
def readU64be (data : List Nat) (off : Nat) : Nat :=
  ((data.drop off).take 8).foldl (fun acc b => acc * 256 + b) 0

/-- The external XZ codec (`lzma_rs::xz_compress` / `xz_decompress`),
modelled abstractly at its interface: compression is total, decompression
may fail. -/
structure XZ where
  comp : List Nat → List Nat
  decomp : List Nat → Option (List Nat)

/-- The chunk loop of `decompress` (`while offset < data.len() { ... }`).
`offset` has consumed the 12-byte stream header and all previous chunks;
`output` is the accumulator.  The bound check
`offset + compressed_size > data.len()` is 64-bit `usize` arithmetic: when
the true sum reaches `2^64` the Rust program panics (overflow panic in a
debug build; wrapped comparison followed by an out-of-range slice index in
a release build), which is recorded as `Outcome.panicked`. -/
def decompressChunks (xz : XZ) (data : List Nat) (offset : Nat) (output : List Nat) :
    Outcome (List Nat) :=
  if _h : offset < data.length then
    if offset + 16 > data.length then
      .ok output
    else
      let flags := readU64be data offset
      let compressed_size := readU64be data (offset + 8)
      if U64_MOD ≤ offset + 16 + compressed_size then
        .panicked
      else if offset + 16 + compressed_size > data.length then
        .err .truncatedChunk
      else
        let chunk_data := (data.drop (offset + 16)).take compressed_size
        if flags = CHUNK_FLAG_XZ then
          match xz.decomp chunk_data with
          | none => .err .codecError
          | some dec =>
            decompressChunks xz data (offset + 16 + compressed_size) (output ++ dec)
        else
          decompressChunks xz data (offset + 16 + compressed_size) (output ++ chunk_data)
  else
    .ok output
termination_by data.length - offset
decreasing_by all_goals omega

/-- `pub fn decompress(data: &[u8]) -> Result<Vec<u8>>` from `src/pbzx.rs`.
The 8-byte default chunk size at offset 4 is read but unused. -/
def decompress (xz : XZ) (data : List Nat) : Outcome (List Nat) :=
  if data.length < 12 then
    .err .tooShort
  else if data.take 4 ≠ PBZX_MAGIC then
    .err .badMagic
  else
    decompressChunks xz data 12 []

/-- Rust `slice::chunks(chunk_size)`: consecutive slices of `chunk_size`
elements, the last possibly shorter; an empty slice yields no chunks.
(`chunks` panics on `chunk_size = 0` in Rust; `compress_with_chunk_size`
rejects that case before calling it, so the `c = 0` guard here is never
reached from the embedded code.) -/
def rustChunks (c : Nat) (l : List Nat) : List (List Nat) :=
  if _h : c = 0 ∨ l = [] then []
  else l.take c :: rustChunks c (l.drop c)
termination_by l.length
decreasing_by
  simp only [List.length_drop]
  have : l.length ≠ 0 := fun hno => _h (Or.inr (List.eq_nil_of_length_eq_zero hno))
  omega

/-- Body of the per-chunk loop of `compress_with_chunk_size`: XZ-compress
the slice; emit the compressed bytes under `CHUNK_FLAG_XZ` when strictly
smaller than the slice, otherwise emit the slice raw under flag `0`. -/
def encodeChunk (xz : XZ) (chunk : List Nat) : List Nat :=
  let compressed := xz.comp chunk
  if compressed.length < chunk.length then
    u64be CHUNK_FLAG_XZ ++ u64be compressed.length ++ compressed
  else
    u64be 0 ++ u64be chunk.length ++ chunk

/-- `pub fn compress_with_chunk_size(data: &[u8], chunk_size: usize)` from
`src/pbzx.rs`. -/
def compress_with_chunk_size (xz : XZ) (data : List Nat) (chunk_size : Nat) :
    Except Error (List Nat) :=
  if chunk_size = 0 then
    .error .invalidChunkSize
  else
    .ok (PBZX_MAGIC ++ u64be chunk_size ++ (rustChunks chunk_size data).flatMap (encodeChunk xz))

/-- `const DEFAULT_CHUNK_SIZE: usize = 1024 * 1024` -/
def DEFAULT_CHUNK_SIZE : Nat := 1024 * 1024

/-- `pub fn compress(data: &[u8])` -/
def compress (xz : XZ) (data : List Nat) : Except Error (List Nat) :=
  compress_with_chunk_size xz data DEFAULT_CHUNK_SIZE

/-! Wire-level description of a chunk stream (spec section 6): a chunk is a
big-endian flag word, a big-endian declared length equal to the payload
length, and the payload; a stream is the magic, the default chunk size and
the chunks in order. -/

/-- One wire chunk with flag word `flag` and payload `payload`. -/
def mkChunk (flag : Nat) (payload : List Nat) : List Nat :=
  u64be flag ++ u64be payload.length ++ payload

/-- A whole chunk stream: header followed by the chunks in order. -/
def mkStream (defaultChunkSize : Nat) (chunks : List (Nat × List Nat)) : List Nat :=
  PBZX_MAGIC ++ u64be defaultChunkSize ++ chunks.flatMap (fun c => mkChunk c.1 c.2)

/-- Decoded output of one chunk: the XZ decompression of the payload when
the flag word is the compressed marker, the payload itself otherwise. -/
def chunkOut (xz : XZ) (c : Nat × List Nat) : Option (List Nat) :=
  if c.1 = CHUNK_FLAG_XZ then xz.decomp c.2 else some c.2

/-- Decoded outputs of a list of chunks, `none` as soon as one fails. -/
def chunkOuts (xz : XZ) : List (Nat × List Nat) → Option (List (List Nat))
  | [] => some []
  | c :: rest =>
    match chunkOut xz c, chunkOuts xz rest with
    | some o, some os => some (o :: os)
    | _, _ => none

/-- The chunk list that `compress_with_chunk_size` frames: for each slice,
the compressed bytes under the compressed marker when strictly smaller,
otherwise the raw slice under flag `0`. -/
def compChunks (xz : XZ) (c : Nat) (d : List Nat) : List (Nat × List Nat) :=
  (rustChunks c d).map fun sl =>
    if (xz.comp sl).length < sl.length then (CHUNK_FLAG_XZ, xz.comp sl) else (0, sl)

/-- A trivial model of the external XZ codec satisfying the round-trip
interface law, used to instantiate theorems at concrete inputs. -/
def idXZ : XZ := ⟨fun l => l, fun l => some l⟩

/-- A 28-byte stream whose single chunk header declares the payload length
`2^64 - 16`: magic, default chunk size `65536`, flag word `0`, length
`0xFFFFFFFFFFFFFFF0`, no payload bytes. -/
def overflowLenInput : List Nat :=
  PBZX_MAGIC ++ u64be 65536 ++ u64be 0 ++ u64be 18446744073709551600

end pbzx

namespace pkg

/-- `FileType` from `src/entry.rs` (the variants the pkg module uses). -/
inductive FileType where
  | regularFile
  | directory
  | symbolicLink
deriving DecidableEq, Repr

/-- The metadata an `EntryMut` carries after the setters the pkg module
calls: pathname, file type, size, permission bits, modification time and
(for symlinks) the link target.  Times are abstract naturals standing for
the seconds value of `SystemTime::now()` at the call. -/
structure EntryMutM where
  pathname : String
  ftype : FileType
  size : Int
  perm : Nat
  mtime : Nat
  symlink : Option String
deriving DecidableEq, Repr

/-- `struct PkgEntry { entry: EntryMut, data: Vec<u8> }` -/
structure PkgEntryM where
  entry : EntryMutM
  data : List Nat
deriving DecidableEq, Repr

/-- `pub struct PkgWriter { entries: Vec<PkgEntry> }` -/
structure PkgWriter where
  entries : List PkgEntryM
deriving DecidableEq, Repr

/-- `PkgWriter::new()` -/
def PkgWriter.new : PkgWriter := ⟨[]⟩

/-- `CString::new` fails when the string contains an interior NUL byte;
`EntryMut::set_pathname` / `set_symlink` propagate that as an error. -/
def hasNulByte (s : String) : Bool :=
  s.toList.any fun ch => ch = Char.ofNat 0

/-- `PkgWriter::add_file`: regular file, size `data.len()`, permission
`0o644`, mtime `now`. -/
def add_file (path : String) (data : List Nat) (now : Nat) (w : PkgWriter) :
    Except Error PkgWriter :=
  if hasNulByte path then .error .invalidString
  else
    .ok ⟨w.entries ++
      [⟨⟨path, .regularFile, (data.length : Int), 0o644, now, none⟩, data⟩]⟩

/-- `PkgWriter::add_file_with_perm`: as `add_file` with the caller's
permission bits. -/
def add_file_with_perm (path : String) (data : List Nat) (perm : Nat) (now : Nat)
    (w : PkgWriter) : Except Error PkgWriter :=
  if hasNulByte path then .error .invalidString
  else
    .ok ⟨w.entries ++
      [⟨⟨path, .regularFile, (data.length : Int), perm, now, none⟩, data⟩]⟩

/-- `PkgWriter::add_directory`: directory, size `0`, permission `0o755`,
no data. -/
def add_directory (path : String) (now : Nat) (w : PkgWriter) :
    Except Error PkgWriter :=
  if hasNulByte path then .error .invalidString
  else
    .ok ⟨w.entries ++ [⟨⟨path, .directory, 0, 0o755, now, none⟩, []⟩]⟩

/-- `PkgWriter::add_symlink`: symlink with the given target, size `0`,
permission `0o777`, no data. -/
def add_symlink (path : String) (target : String) (now : Nat) (w : PkgWriter) :
    Except Error PkgWriter :=
  if hasNulByte path then .error .invalidString
  else if hasNulByte target then .error .invalidString
  else
    .ok ⟨w.entries ++ [⟨⟨path, .symbolicLink, 0, 0o777, now, some target⟩, []⟩]⟩

/-- One call into the inner-container write collaborator
(`archive.write_header` / `archive.write_data` in `build_cpio`). -/
inductive COp where
  | header (e : EntryMutM)
  | body (bytes : List Nat)
deriving DecidableEq, Repr

/-- The write-operation sequence `build_cpio` issues: for each accumulated
entry, one header write, then one body write when the data is nonempty. -/
def cpioOps (entries : List PkgEntryM) : List COp :=
  entries.flatMap fun pe =>
    COp.header pe.entry :: (if pe.data = [] then [] else [COp.body pe.data])

/-- The external CPIO engine (libarchive) at the section-6 collaborator
interface: serializing a write-operation sequence to bytes, and reading a
byte buffer back as entries (metadata plus fully-read data). -/
structure CpioC where
  writeOps : List COp → List Nat
  read : List Nat → Option (List PkgEntryM)

/-- An entry of the outer XAR container as the reader sees it: optional
pathname (`entry.pathname()` is an `Option`), metadata, and the bytes
`read_data_to_vec` would return. -/
structure XarEntryM where
  pathname : Option String
  ftype : FileType
  size : Int
  perm : Nat
  mtime : Nat
  data : List Nat
deriving DecidableEq, Repr

/-- The external XAR engine (libarchive) at the section-6 collaborator
interface. -/
structure XarC where
  write : List XarEntryM → List Nat
  read : List Nat → Option (List XarEntryM)

/-- `PkgWriter::build_cpio`: serialize the accumulated entries through the
CPIO collaborator into a fixed 64 MiB scratch buffer; overflowing the
buffer surfaces as a container error. -/
def build_cpio (cpio : CpioC) (w : PkgWriter) : Except Error (List Nat) :=
  let blob := cpio.writeOps (cpioOps w.entries)
  if blob.length ≤ 64 * 1024 * 1024 then .ok blob else .error .containerError

/-- `PkgWriter::build_pbzx_payload`: CPIO bytes, then `pbzx::compress`. -/
def build_pbzx_payload (xz : pbzx.XZ) (cpio : CpioC) (w : PkgWriter) :
    Except Error (List Nat) := do
  let cpio_data ← build_cpio cpio w
  pbzx.compress xz cpio_data

/-- The single `"Payload"` entry `write_xar` / `build_xar_bytes` write:
regular file, size `payload.len()`, permission `0o644`, mtime `now`. -/
def payloadXarEntry (now : Nat) (payload : List Nat) : XarEntryM :=
  ⟨some "Payload", .regularFile, (payload.length : Int), 0o644, now, payload⟩

/-- `PkgWriter::build_xar_bytes`: serialize the one `"Payload"` entry
through the XAR collaborator into a scratch buffer of
`payload.len() + 4096` bytes; overflowing it surfaces as a container
error. -/
def build_xar_bytes (xar : XarC) (now : Nat) (payload : List Nat) :
    Except Error (List Nat) :=
  let blob := xar.write [payloadXarEntry now payload]
  if blob.length ≤ payload.length + 4096 then .ok blob else .error .containerError

/-- `PkgWriter::write_xar`: stream the one `"Payload"` entry to a file;
the bytes written to the file are the XAR serialization. -/
def write_xar (xar : XarC) (now : Nat) (payload : List Nat) :
    Except Error (List Nat) :=
  .ok (xar.write [payloadXarEntry now payload])

/-- `PkgWriter::write_to_vec(&self)`. -/
def write_to_vec (xz : pbzx.XZ) (cpio : CpioC) (xar : XarC) (now : Nat)
    (w : PkgWriter) : Except Error (List Nat) := do
  let pbzx_payload ← build_pbzx_payload xz cpio w
  build_xar_bytes xar now pbzx_payload

/-- `PkgWriter::write(&self, path)`; the returned bytes are the file
contents produced at `path`. -/
def write (xz : pbzx.XZ) (cpio : CpioC) (xar : XarC) (now : Nat)
    (w : PkgWriter) : Except Error (List Nat) := do
  let pbzx_payload ← build_pbzx_payload xz cpio w
  write_xar xar now pbzx_payload

/-- `write_to_vec` as an explicit method call on a `&self` receiver: the
call returns its result together with the receiver, which a shared
reference cannot have mutated (`PkgWriter` has no interior mutability). -/
def write_to_vec_call (xz : pbzx.XZ) (cpio : CpioC) (xar : XarC) (now : Nat)
    (w : PkgWriter) : Except Error (List Nat) × PkgWriter :=
  (write_to_vec xz cpio xar now w, w)

/-- `write` as an explicit method call on a `&self` receiver. -/
def write_call (xz : pbzx.XZ) (cpio : CpioC) (xar : XarC) (now : Nat)
    (w : PkgWriter) : Except Error (List Nat) × PkgWriter :=
  (write xz cpio xar now w, w)

/-- The payload-name test of `PkgReader::extract_payload`:
`name == "Payload" || name.ends_with("/Payload")` where `name` is
`entry.pathname().unwrap_or_default()`. -/
def isPayloadName (e : XarEntryM) : Bool :=
  let name := e.pathname.getD ""
  name == "Payload" || name.endsWith "/Payload"

/-- The entry loop of `PkgReader::extract_payload`: iterate the outer
container's entries in order; on the first name match, read that entry's
bytes fully; fail with the missing-payload error when exhausted. -/
def extract_payload : List XarEntryM → Except Error (List Nat)
  | [] => .error .missingPayload
  | e :: rest =>
    if isPayloadName e then .ok e.data else extract_payload rest

/-- `PkgReader::open` on the bytes of a `.pkg` file: list the outer
container, extract the payload, pbzx-decompress it, open the result as the
inner container; the result models the full entry/data sequence
`next_entry` / `read_data_to_vec` then yields. -/
def pkgOpen (xz : pbzx.XZ) (cpio : CpioC) (xar : XarC) (pkgBytes : List Nat) :
    Outcome (List PkgEntryM) :=
  match xar.read pkgBytes with
  | none => .err .containerError
  | some xentries =>
    match extract_payload xentries with
    | .error e => .err e
    | .ok payload_data =>
      match pbzx.decompress xz payload_data with
      | .panicked => .panicked
      | .err e => .err e
      | .ok cpio_data =>
        match cpio.read cpio_data with
        | none => .err .containerError
        | some entries => .ok entries

/-- The entry each `add_*` call appends, tagged by the call. -/
inductive AddOp where
  | file (now : Nat) (path : String) (data : List Nat)
  | fileWithPerm (now : Nat) (path : String) (data : List Nat) (perm : Nat)
  | directory (now : Nat) (path : String)
  | symlink (now : Nat) (path : String) (target : String)
deriving DecidableEq, Repr

/-- Run one `add_*` method call. -/
def applyAdd (op : AddOp) (w : PkgWriter) : Except Error PkgWriter :=
  match op with
  | .file now path data => add_file path data now w
  | .fileWithPerm now path data perm => add_file_with_perm path data perm now w
  | .directory now path => add_directory path now w
  | .symlink now path target => add_symlink path target now w

/-- Run a sequence of `add_*` calls, stopping at the first failure. -/
def applyAdds : List AddOp → PkgWriter → Except Error PkgWriter
  | [], w => .ok w
  | op :: ops, w =>
    match applyAdd op w with
    | .error e => .error e
    | .ok w' => applyAdds ops w'

/-- All strings an `add_*` call hands to `CString::new` are NUL-free. -/
def opValid (op : AddOp) : Bool :=
  match op with
  | .file _ path _ => !hasNulByte path
  | .fileWithPerm _ path _ _ => !hasNulByte path
  | .directory _ path => !hasNulByte path
  | .symlink _ path target => !hasNulByte path && !hasNulByte target

/-- The `PkgEntry` record an `add_*` call pushes. -/
def opEntry (op : AddOp) : PkgEntryM :=
  match op with
  | .file now path data =>
    ⟨⟨path, .regularFile, (data.length : Int), 0o644, now, none⟩, data⟩
  | .fileWithPerm now path data perm =>
    ⟨⟨path, .regularFile, (data.length : Int), perm, now, none⟩, data⟩
  | .directory now path => ⟨⟨path, .directory, 0, 0o755, now, none⟩, []⟩
  | .symlink now path target => ⟨⟨path, .symbolicLink, 0, 0o777, now, some target⟩, []⟩

/-- The add-call sequence of the pipeline round-trip scenario:
`file("a/b.txt", "hi")`, `directory("a/c")`,
`file_with_perm("a/d", "bin", 0o755)`. -/
def c2Ops (n1 n2 n3 : Nat) : List AddOp :=
  [.file n1 "a/b.txt" [104, 105], .directory n2 "a/c",
   .fileWithPerm n3 "a/d" [98, 105, 110] 0o755]

/-- A trivial CPIO-collaborator instance used to instantiate theorems: it
serializes everything to zero bytes and reads back the pipeline
round-trip scenario's entries. -/
def c2CpioInstance : CpioC :=
  ⟨fun _ => [], fun _ => some ((c2Ops 0 0 0).map opEntry)⟩

/-- A trivial XAR-collaborator instance used to instantiate theorems: the
serialization of an entry list is the first entry's data, and a buffer
reads back as one `"Payload"` entry holding exactly those bytes. -/
def c2XarInstance : XarC :=
  ⟨fun es => (es.headD ⟨none, .regularFile, 0, 0, 0, []⟩).data,
   fun b => some [payloadXarEntry 0 b]⟩

/-- A degenerate XAR-collaborator instance whose containers list no
entries at all. -/
def emptyXarInstance : XarC := ⟨fun _ => [], fun _ => some []⟩

end pkg

namespace pbzx

theorem u64be_length (n : Nat) : (u64be n).length = 8 := rfl

theorem readU64be_of_drop (data : List Nat) (off n : Nat) (rest : List Nat)
    (h : data.drop off = u64be n ++ rest) :
    readU64be data off = n % U64_MOD := by
  unfold readU64be U64_MOD
  rw [h]
  simp only [u64be, List.take, List.foldl]
  omega

theorem mkChunk_length (flag : Nat) (payload : List Nat) :
    (mkChunk flag payload).length = 16 + payload.length := by
  simp [mkChunk, u64be]
  omega

/-- Correctness of the chunk loop on a buffer whose tail from `off` onward
is a sequence of complete chunks followed by fewer than 16 trailing bytes:
the loop returns the accumulator extended with the decoded chunk outputs in
order. -/
theorem decompressChunks_spec (xz : XZ) (chunks : List (Nat × List Nat)) :
    ∀ (data t out : List Nat) (off : Nat) (outs : List (List Nat)),
    data.drop off = chunks.flatMap (fun c => mkChunk c.1 c.2) ++ t →
    off ≤ data.length →
    data.length < U64_MOD →
    t.length < 16 →
    (∀ c ∈ chunks, c.1 < U64_MOD) →
    chunkOuts xz chunks = some outs →
    decompressChunks xz data off out = .ok (out ++ outs.flatten) := by
  induction chunks with
  | nil =>
    intro data t out off outs hdrop hoff hlen ht _ houts
    simp only [chunkOuts, Option.some.injEq] at houts
    subst houts
    have hlen' : data.length - off = t.length := by
      have := congrArg List.length hdrop
      simpa using this
    rw [decompressChunks]
    simp only [List.flatten_nil, List.append_nil]
    split
    · split
      · rfl
      · omega
    · rfl
  | cons c rest ih =>
    intro data t out off outs hdrop hoff hlen ht hflags houts
    obtain ⟨f, p⟩ := c
    rw [chunkOuts] at houts
    cases ho : chunkOut xz (f, p) with
    | none =>
      rw [ho] at houts
      simp at houts
    | some o =>
    rw [ho] at houts
    cases hos : chunkOuts xz rest with
    | none =>
      rw [hos] at houts
      simp at houts
    | some os =>
    rw [hos] at houts
    simp only [Option.some.injEq] at houts
    subst houts
    have hbody : data.drop off =
        u64be f ++ (u64be p.length ++ (p ++ ((rest.flatMap fun c => mkChunk c.1 c.2) ++ t))) := by
      simpa [mkChunk, List.append_assoc] using hdrop
    have hlen' : data.length - off =
        16 + p.length + (rest.flatMap fun c => mkChunk c.1 c.2).length + t.length := by
      have := congrArg List.length hbody
      simp only [List.length_drop, List.length_append, u64be_length] at this
      omega
    have hofflt : off < data.length := by omega
    have hf64 : f < U64_MOD := hflags (f, p) (List.mem_cons_self _ _)
    have hflagsread : readU64be data off = f := by
      rw [readU64be_of_drop data off f _ hbody]
      exact Nat.mod_eq_of_lt hf64
    have hdrop8 : data.drop (off + 8) =
        u64be p.length ++ (p ++ ((rest.flatMap fun c => mkChunk c.1 c.2) ++ t)) := by
      rw [← List.drop_drop, hbody, List.drop_left' (u64be_length f)]
    have hp64 : p.length < U64_MOD := by omega
    have hsizeread : readU64be data (off + 8) = p.length := by
      rw [readU64be_of_drop data (off + 8) p.length _ hdrop8]
      exact Nat.mod_eq_of_lt hp64
    have hdrop16 : data.drop (off + 16) =
        p ++ ((rest.flatMap fun c => mkChunk c.1 c.2) ++ t) := by
      have h8 : (u64be p.length).length = 8 := u64be_length _
      rw [show off + 16 = off + 8 + 8 by omega, ← List.drop_drop, hdrop8,
        List.drop_left' h8]
    have hchunk : (data.drop (off + 16)).take p.length = p := by
      rw [hdrop16, List.take_left]
    have hdropnext : data.drop (off + 16 + p.length) =
        (rest.flatMap fun c => mkChunk c.1 c.2) ++ t := by
      rw [← List.drop_drop, hdrop16, List.drop_left' rfl]
    have hih := ih data t (out ++ o) (off + 16 + p.length) os hdropnext
      (by omega) hlen ht (fun c hc => hflags c (List.mem_cons_of_mem _ hc)) hos
    rw [decompressChunks, dif_pos hofflt,
      if_neg (show ¬ off + 16 > data.length by omega)]
    simp only [hflagsread, hsizeread, hchunk]
    rw [if_neg (show ¬ U64_MOD ≤ off + 16 + p.length by omega),
      if_neg (show ¬ off + 16 + p.length > data.length by omega)]
    rw [chunkOut] at ho
    by_cases hf : f = CHUNK_FLAG_XZ
    · rw [if_pos hf]
      rw [if_pos hf] at ho
      rw [ho]
      simpa [List.append_assoc] using hih
    · rw [if_neg hf]
      rw [if_neg hf] at ho
      obtain rfl : p = o := by simpa using ho
      simpa [List.append_assoc] using hih

theorem mkStream_length (dcs : Nat) (chunks : List (Nat × List Nat)) :
    (mkStream dcs chunks).length =
      12 + (chunks.flatMap fun c => mkChunk c.1 c.2).length := by
  simp [mkStream, PBZX_MAGIC, u64be]
  omega

/-- Decoding a well-formed chunk stream followed by fewer than 16 trailing
bytes: the trailer is ignored and the output is the concatenation of the
per-chunk outputs in stream order. -/
theorem decompress_mkStream (xz : XZ) (dcs : Nat) (chunks : List (Nat × List Nat))
    (t : List Nat) (outs : List (List Nat))
    (hlen : (mkStream dcs chunks).length + t.length < U64_MOD)
    (ht : t.length < 16)
    (hflags : ∀ c ∈ chunks, c.1 < U64_MOD)
    (houts : chunkOuts xz chunks = some outs) :
    decompress xz (mkStream dcs chunks ++ t) = .ok outs.flatten := by
  have hshape : mkStream dcs chunks ++ t =
      (PBZX_MAGIC ++ u64be dcs) ++ ((chunks.flatMap fun c => mkChunk c.1 c.2) ++ t) := by
    simp [mkStream, List.append_assoc]
  have hhead : (PBZX_MAGIC ++ u64be dcs : List Nat).length = 12 := rfl
  have hlentot : (mkStream dcs chunks ++ t).length =
      (mkStream dcs chunks).length + t.length := by simp
  have htake : (mkStream dcs chunks ++ t).take 4 = PBZX_MAGIC := by
    have h4 : mkStream dcs chunks ++ t =
        PBZX_MAGIC ++ (u64be dcs ++ ((chunks.flatMap fun c => mkChunk c.1 c.2) ++ t)) := by
      simp [mkStream, List.append_assoc]
    rw [h4, List.take_left' (show (PBZX_MAGIC : List Nat).length = 4 from rfl)]
  have hdrop12 : (mkStream dcs chunks ++ t).drop 12 =
      (chunks.flatMap fun c => mkChunk c.1 c.2) ++ t := by
    rw [hshape, List.drop_left' hhead]
  unfold decompress
  rw [if_neg (by rw [hlentot, mkStream_length]; omega)]
  rw [if_neg (by simp [htake])]
  have hmain := decompressChunks_spec xz chunks (mkStream dcs chunks ++ t) t [] 12 outs
    hdrop12 (by rw [hlentot, mkStream_length]; omega)
    (by rw [hlentot]; omega) ht hflags houts
  simpa using hmain

theorem rustChunks_flatten (c : Nat) (hc : c ≠ 0) (l : List Nat) :
    (rustChunks c l).flatten = l := by
  suffices h : ∀ (n : Nat) (l : List Nat), l.length ≤ n → (rustChunks c l).flatten = l from
    h l.length l le_rfl
  intro n
  induction n with
  | zero =>
    intro l hl
    obtain rfl : l = [] := List.eq_nil_of_length_eq_zero (by omega)
    rw [rustChunks]
    simp
  | succ n ihn =>
    intro l hl
    rw [rustChunks]
    split
    · rename_i h
      rcases h with h | h
      · exact absurd h hc
      · simp [h]
    · rename_i h
      push_neg at h
      have hlpos : l.length ≠ 0 := fun h0 => h.2 (List.eq_nil_of_length_eq_zero h0)
      rw [List.flatten_cons, ihn (l.drop c) (by simp; omega), List.take_append_drop]

theorem rustChunks_length_le (c : Nat) (l : List Nat) :
    (rustChunks c l).length ≤ l.length := by
  suffices h : ∀ (n : Nat) (l : List Nat), l.length ≤ n → (rustChunks c l).length ≤ l.length from
    h l.length l le_rfl
  intro n
  induction n with
  | zero =>
    intro l hl
    obtain rfl : l = [] := List.eq_nil_of_length_eq_zero (by omega)
    rw [rustChunks]
    simp
  | succ n ihn =>
    intro l hl
    rw [rustChunks]
    split
    · simp
    · rename_i h
      push_neg at h
      have hlpos : l.length ≠ 0 := fun h0 => h.2 (List.eq_nil_of_length_eq_zero h0)
      have := ihn (l.drop c) (by simp; omega)
      simp only [List.length_cons, List.length_drop] at *
      omega

theorem encodeChunk_flatMap_eq (xz : XZ) (L : List (List Nat)) :
    L.flatMap (encodeChunk xz) =
      (L.map fun sl =>
          if (xz.comp sl).length < sl.length then (CHUNK_FLAG_XZ, xz.comp sl) else (0, sl)).flatMap
        (fun c => mkChunk c.1 c.2) := by
  induction L with
  | nil => rfl
  | cons sl L ih =>
    simp only [List.flatMap_cons, List.map_cons, ih]
    congr 1
    by_cases h : (xz.comp sl).length < sl.length <;> simp [encodeChunk, mkChunk, h]

/-- `compress_with_chunk_size` succeeds on any nonzero chunk size and its
output is exactly the chunk stream framing of `compChunks`. -/
theorem compress_eq_mkStream (xz : XZ) (d : List Nat) (c : Nat) (hc : c ≠ 0) :
    compress_with_chunk_size xz d c = .ok (mkStream c (compChunks xz c d)) := by
  unfold compress_with_chunk_size mkStream compChunks
  rw [if_neg hc, encodeChunk_flatMap_eq]

theorem compChunks_flag_cases (xz : XZ) (c : Nat) (d : List Nat) :
    ∀ ch ∈ compChunks xz c d, ch.1 = CHUNK_FLAG_XZ ∨ ch.1 = 0 := by
  intro ch hch
  simp only [compChunks, List.mem_map] at hch
  obtain ⟨sl, _, rfl⟩ := hch
  by_cases h : (xz.comp sl).length < sl.length <;> simp [h]

theorem chunkOuts_compChunks (xz : XZ) (hxz : ∀ l, xz.decomp (xz.comp l) = some l)
    (c : Nat) (d : List Nat) :
    chunkOuts xz (compChunks xz c d) = some (rustChunks c d) := by
  unfold compChunks
  induction rustChunks c d with
  | nil => rfl
  | cons sl L ih =>
    simp only [List.map_cons, chunkOuts, ih]
    by_cases h : (xz.comp sl).length < sl.length <;>
      simp [chunkOut, h, hxz, CHUNK_FLAG_XZ]

theorem encodeChunk_length_le (xz : XZ) (sl : List Nat) :
    (encodeChunk xz sl).length ≤ 16 + sl.length := by
  unfold encodeChunk
  by_cases h : (xz.comp sl).length < sl.length <;> simp [h, u64be] <;> omega

theorem encodeChunk_flatMap_length_le (xz : XZ) (L : List (List Nat)) :
    (L.flatMap (encodeChunk xz)).length ≤ 16 * L.length + L.flatten.length := by
  induction L with
  | nil => simp
  | cons sl L ih =>
    simp only [List.flatMap_cons, List.length_append, List.flatten_cons, List.length_cons]
    have := encodeChunk_length_le xz sl
    omega

/-- Size bound of the encoder output: header plus payload bytes plus 16
bytes of per-chunk overhead. -/
theorem compress_length_le (xz : XZ) (d : List Nat) (c : Nat) (hc : c ≠ 0) :
    (mkStream c (compChunks xz c d)).length ≤
      12 + d.length + 16 * (rustChunks c d).length := by
  rw [mkStream_length]
  unfold compChunks
  rw [← encodeChunk_flatMap_eq]
  have h1 := encodeChunk_flatMap_length_le xz (rustChunks c d)
  have h2 := rustChunks_flatten c hc d
  have h3 : (rustChunks c d).flatten.length = d.length := by rw [h2]
  omega

theorem rustChunks_mem_length (c : Nat) (l : List Nat) :
    ∀ sl ∈ rustChunks c l, sl.length ≤ c := by
  suffices h : ∀ (n : Nat) (l : List Nat), l.length ≤ n → ∀ sl ∈ rustChunks c l, sl.length ≤ c from
    h l.length l le_rfl
  intro n
  induction n with
  | zero =>
    intro l hl
    obtain rfl : l = [] := List.eq_nil_of_length_eq_zero (by omega)
    rw [rustChunks]
    simp
  | succ n ihn =>
    intro l hl sl hsl
    rw [rustChunks] at hsl
    split at hsl
    · simp at hsl
    · rename_i h
      push_neg at h
      have hlpos : l.length ≠ 0 := fun h0 => h.2 (List.eq_nil_of_length_eq_zero h0)
      rcases List.mem_cons.mp hsl with rfl | hmem
      · simp
      · exact ihn (l.drop c) (by simp; omega) sl hmem

theorem chunkOuts_of_isSome (xz : XZ) (chunks : List (Nat × List Nat))
    (h : ∀ ch ∈ chunks, (chunkOut xz ch).isSome) :
    chunkOuts xz chunks = some (chunks.map fun ch => (chunkOut xz ch).getD []) := by
  induction chunks with
  | nil => rfl
  | cons ch rest ih =>
    have h1 := h ch (List.mem_cons_self _ _)
    rw [chunkOuts]
    rcases ho : chunkOut xz ch with _ | o
    · rw [ho] at h1
      simp at h1
    · rw [ih (fun c hc => h c (List.mem_cons_of_mem _ hc))]
      simp [ho]

/-- Decoding the encoder's framing of `d` recovers `d`, for any XZ
collaborator satisfying the round-trip interface law and any buffer short
enough to exist in a 64-bit address space. -/
theorem decompress_compChunks (xz : XZ) (hxz : ∀ l, xz.decomp (xz.comp l) = some l)
    (d : List Nat) (c : Nat) (hc : c ≠ 0) (hd : 17 * d.length + 12 < U64_MOD) :
    decompress xz (mkStream c (compChunks xz c d)) = .ok d := by
  have hbound := compress_length_le xz d c hc
  have hnum := rustChunks_length_le c d
  have hlen : (mkStream c (compChunks xz c d)).length +
      ([] : List Nat).length < U64_MOD := by
    simp only [List.length_nil]
    omega
  have hflags : ∀ ch ∈ compChunks xz c d, ch.1 < U64_MOD := by
    intro ch hch
    rcases compChunks_flag_cases xz c d ch hch with h | h <;> rw [h] <;> decide
  have hmain := decompress_mkStream xz c (compChunks xz c d) []
    (rustChunks c d) hlen (by simp) hflags (chunkOuts_compChunks xz hxz c d)
  rw [List.append_nil] at hmain
  rw [hmain, rustChunks_flatten c hc d]

end pbzx

/-- Claim C1: codec round trip — for every byte buffer `d` (including the
empty buffer) and every chunk size `c > 0`, decoding the result of encoding
`d` with chunk size `c` returns exactly `d`.  The XZ collaborator is
assumed to satisfy its round-trip interface law, and `d` is short enough to
exist in a 64-bit address space. -/
theorem C1_codec_roundtrip (xz : pbzx.XZ)
    (hxz : ∀ l, xz.decomp (xz.comp l) = some l)
    (d : List Nat) (c : Nat) (hc : 0 < c)
    (hd : 17 * d.length + 12 < pbzx.U64_MOD) :
    ∃ enc, pbzx.compress_with_chunk_size xz d c = .ok enc ∧
      pbzx.decompress xz enc = .ok d :=
  ⟨_, pbzx.compress_eq_mkStream xz d c (by omega),
    pbzx.decompress_compChunks xz hxz d c (by omega) hd⟩

/-- Witness for C1 at `d = [5, 6, 7]`, `c = 2`. -/
theorem C1_codec_roundtrip_witness :
    (∀ l, pbzx.idXZ.decomp (pbzx.idXZ.comp l) = some l) ∧ 0 < 2 ∧
      17 * ([5, 6, 7] : List Nat).length + 12 < pbzx.U64_MOD ∧
      ∃ enc, pbzx.compress_with_chunk_size pbzx.idXZ [5, 6, 7] 2 = .ok enc ∧
        pbzx.decompress pbzx.idXZ enc = .ok [5, 6, 7] :=
  ⟨fun _ => rfl, by decide, by decide,
    C1_codec_roundtrip pbzx.idXZ (fun _ => rfl) [5, 6, 7] 2 (by decide) (by decide)⟩

/-- Claim C3 (code bug): `decompress` of a buffer shorter than 12 bytes
does fail with the too-short error and a header-only buffer does decode to
the empty sequence, but a chunk header whose declared payload length `L`
makes `offset + L` exceed the machine word does not produce the
truncated-chunk error: the `offset + compressed_size` bound check
overflows `usize` and the program panics.  This theorem evaluates the
embedded code at such an input. -/
theorem C3_overflow_length_panics (xz : pbzx.XZ) :
    pbzx.decompress xz pbzx.overflowLenInput = .panicked := by
  have h0 : pbzx.readU64be pbzx.overflowLenInput 12 = 0 := by decide
  have h1 : pbzx.readU64be pbzx.overflowLenInput 20 = 18446744073709551600 := by decide
  unfold pbzx.decompress
  rw [if_neg (by decide), if_neg (by decide), pbzx.decompressChunks,
    dif_pos (by decide)]
  rw [if_neg (by decide)]
  simp only [h0, h1]
  rw [if_pos (by decide)]

/-- Claim C4: flag interpretation and chunk order — decoding a well-formed
stream yields the concatenation, in stream order, of the per-chunk
outputs, where a chunk whose flag word is not the compressed-marker
constant (zero or any other value) contributes its payload bytes
verbatim. -/
theorem C4_flag_interpretation_and_order (xz : pbzx.XZ) (dcs : Nat)
    (chunks : List (Nat × List Nat))
    (hlen : (pbzx.mkStream dcs chunks).length < pbzx.U64_MOD)
    (hflags : ∀ ch ∈ chunks, ch.1 < pbzx.U64_MOD)
    (hdec : ∀ ch ∈ chunks, ch.1 = pbzx.CHUNK_FLAG_XZ → (xz.decomp ch.2).isSome) :
    pbzx.decompress xz (pbzx.mkStream dcs chunks) =
      .ok ((chunks.map fun ch =>
        if ch.1 = pbzx.CHUNK_FLAG_XZ then (xz.decomp ch.2).getD [] else ch.2).flatten) ∧
      ∀ ch ∈ chunks, ch.1 ≠ pbzx.CHUNK_FLAG_XZ → pbzx.chunkOut xz ch = some ch.2 := by
  constructor
  · have hsome : ∀ ch ∈ chunks, (pbzx.chunkOut xz ch).isSome := by
      intro ch hch
      unfold pbzx.chunkOut
      by_cases h : ch.1 = pbzx.CHUNK_FLAG_XZ
      · rw [if_pos h]
        exact hdec ch hch h
      · rw [if_neg h]
        rfl
    have houts := pbzx.chunkOuts_of_isSome xz chunks hsome
    have hmain := pbzx.decompress_mkStream xz dcs chunks []
      (chunks.map fun ch => (pbzx.chunkOut xz ch).getD []) (by simp; omega) (by simp)
      hflags houts
    rw [List.append_nil] at hmain
    rw [hmain]
    congr 2
    apply List.map_congr_left
    intro ch _
    unfold pbzx.chunkOut
    by_cases h : ch.1 = pbzx.CHUNK_FLAG_XZ <;> simp [h]
  · intro ch _ h
    unfold pbzx.chunkOut
    rw [if_neg h]

/-- Witness for C4: one raw chunk followed by one compressed chunk decodes
to the concatenation of both fragments in order. -/
theorem C4_flag_interpretation_and_order_witness :
    ((pbzx.mkStream 65536 [(0, [1, 2]), (pbzx.CHUNK_FLAG_XZ, [3])]).length <
        pbzx.U64_MOD) ∧
      pbzx.decompress pbzx.idXZ (pbzx.mkStream 65536 [(0, [1, 2]), (pbzx.CHUNK_FLAG_XZ, [3])]) =
        .ok (([(0, [1, 2]), (pbzx.CHUNK_FLAG_XZ, [3])].map fun ch =>
          if ch.1 = pbzx.CHUNK_FLAG_XZ then (pbzx.idXZ.decomp ch.2).getD [] else ch.2).flatten) :=
  ⟨by decide,
    (C4_flag_interpretation_and_order pbzx.idXZ 65536
      [(0, [1, 2]), (pbzx.CHUNK_FLAG_XZ, [3])] (by decide) (by decide) (by decide)).1⟩

/-- Claim C5: encode raw fallback and size bound — each slice is at most
`c` bytes; a slice is emitted compressed only when its compressed form is
strictly smaller, and raw with flag `0` otherwise; consequently the
encoded stream is at most `12 + d.len() + 16 * (number of chunks)` bytes
long. -/
theorem C5_compress_raw_fallback_size_bound (xz : pbzx.XZ) (d : List Nat)
    (c : Nat) (hc : 0 < c) :
    ∃ enc, pbzx.compress_with_chunk_size xz d c = .ok enc ∧
      enc.length ≤ 12 + d.length + 16 * (pbzx.rustChunks c d).length ∧
      ∀ sl ∈ pbzx.rustChunks c d, sl.length ≤ c ∧
        ((xz.comp sl).length < sl.length →
          pbzx.encodeChunk xz sl =
            pbzx.u64be pbzx.CHUNK_FLAG_XZ ++ pbzx.u64be (xz.comp sl).length ++ xz.comp sl) ∧
        (¬ (xz.comp sl).length < sl.length →
          pbzx.encodeChunk xz sl = pbzx.u64be 0 ++ pbzx.u64be sl.length ++ sl) := by
  refine ⟨_, pbzx.compress_eq_mkStream xz d c (by omega), ?_, ?_⟩
  · exact pbzx.compress_length_le xz d c (by omega)
  · intro sl hsl
    refine ⟨pbzx.rustChunks_mem_length c d sl hsl, ?_, ?_⟩
    · intro h
      unfold pbzx.encodeChunk
      rw [if_pos h]
    · intro h
      unfold pbzx.encodeChunk
      rw [if_neg h]

/-- Witness for C5 at `d = [9, 9, 9]`, `c = 2`. -/
theorem C5_compress_raw_fallback_size_bound_witness :
    0 < 2 ∧
      ∃ enc, pbzx.compress_with_chunk_size pbzx.idXZ [9, 9, 9] 2 = .ok enc ∧
        enc.length ≤ 12 + ([9, 9, 9] : List Nat).length +
          16 * (pbzx.rustChunks 2 [9, 9, 9]).length ∧
        ∀ sl ∈ pbzx.rustChunks 2 [9, 9, 9], sl.length ≤ 2 ∧
          ((pbzx.idXZ.comp sl).length < sl.length →
            pbzx.encodeChunk pbzx.idXZ sl =
              pbzx.u64be pbzx.CHUNK_FLAG_XZ ++ pbzx.u64be (pbzx.idXZ.comp sl).length ++
                pbzx.idXZ.comp sl) ∧
          (¬ (pbzx.idXZ.comp sl).length < sl.length →
            pbzx.encodeChunk pbzx.idXZ sl =
              pbzx.u64be 0 ++ pbzx.u64be sl.length ++ sl) :=
  ⟨by decide, C5_compress_raw_fallback_size_bound pbzx.idXZ [9, 9, 9] 2 (by decide)⟩

/-- Claim C6: trailing-garbage tolerance — appending fewer than 16 bytes
to a well-formed chunk stream does not change the (successful) result of
`decompress`. -/
theorem C6_trailing_garbage_ignored (xz : pbzx.XZ) (dcs : Nat)
    (chunks : List (Nat × List Nat)) (t : List Nat) (outs : List (List Nat))
    (hlen : (pbzx.mkStream dcs chunks).length + t.length < pbzx.U64_MOD)
    (ht : t.length < 16)
    (hflags : ∀ ch ∈ chunks, ch.1 < pbzx.U64_MOD)
    (houts : pbzx.chunkOuts xz chunks = some outs) :
    pbzx.decompress xz (pbzx.mkStream dcs chunks ++ t) = .ok outs.flatten ∧
    pbzx.decompress xz (pbzx.mkStream dcs chunks ++ t) =
      pbzx.decompress xz (pbzx.mkStream dcs chunks) := by
  have h1 := pbzx.decompress_mkStream xz dcs chunks t outs hlen ht hflags houts
  have h2 := pbzx.decompress_mkStream xz dcs chunks [] outs (by simp; omega) (by simp)
    hflags houts
  rw [List.append_nil] at h2
  exact ⟨h1, by rw [h1, h2]⟩

/-- Witness for C6: one raw chunk plus a 1-byte trailer. -/
theorem C6_trailing_garbage_ignored_witness :
    ((pbzx.mkStream 65536 [(0, [1, 2, 3])]).length + ([7] : List Nat).length <
        pbzx.U64_MOD) ∧ ([7] : List Nat).length < 16 ∧
      (pbzx.decompress pbzx.idXZ (pbzx.mkStream 65536 [(0, [1, 2, 3])] ++ [7]) =
          .ok ([[1, 2, 3]] : List (List Nat)).flatten ∧
        pbzx.decompress pbzx.idXZ (pbzx.mkStream 65536 [(0, [1, 2, 3])] ++ [7]) =
          pbzx.decompress pbzx.idXZ (pbzx.mkStream 65536 [(0, [1, 2, 3])])) :=
  ⟨by decide, by decide,
    C6_trailing_garbage_ignored pbzx.idXZ 65536 [(0, [1, 2, 3])] [7] [[1, 2, 3]]
      (by decide) (by decide) (by decide) (by decide)⟩

namespace pkg

/-- The extraction loop returns the data of the first entry whose name
matches, and the missing-payload error when no entry matches. -/
theorem extract_payload_eq_find (entries : List XarEntryM) :
    extract_payload entries =
      match entries.find? isPayloadName with
      | some e => .ok e.data
      | none => .error Error.missingPayload := by
  induction entries with
  | nil => rfl
  | cons e rest ih =>
    rw [extract_payload]
    by_cases h : isPayloadName e
    · rw [if_pos h, List.find?_cons_of_pos _ h]
    · rw [if_neg h, List.find?_cons_of_neg _ h, ih]

/-- A sequence of valid `add_*` calls succeeds and appends its entries to
the accumulation list in call order. -/
theorem applyAdds_ok (ops : List AddOp) (h : ∀ op ∈ ops, opValid op = true)
    (w : PkgWriter) :
    applyAdds ops w = .ok ⟨w.entries ++ ops.map opEntry⟩ := by
  induction ops generalizing w with
  | nil => simp [applyAdds]
  | cons op ops ih =>
    have hop := h op (List.mem_cons_self _ _)
    have hstep : applyAdd op w = .ok ⟨w.entries ++ [opEntry op]⟩ := by
      cases op with
      | file now path data =>
        simp only [opValid, Bool.not_eq_true'] at hop
        simp [applyAdd, add_file, opEntry, hop]
      | fileWithPerm now path data perm =>
        simp only [opValid, Bool.not_eq_true'] at hop
        simp [applyAdd, add_file_with_perm, opEntry, hop]
      | directory now path =>
        simp only [opValid, Bool.not_eq_true'] at hop
        simp [applyAdd, add_directory, opEntry, hop]
      | symlink now path target =>
        simp only [opValid, Bool.and_eq_true, Bool.not_eq_true'] at hop
        simp [applyAdd, add_symlink, opEntry, hop.1, hop.2]
    rw [applyAdds, hstep]
    show applyAdds ops ⟨w.entries ++ [opEntry op]⟩ =
      Except.ok ⟨w.entries ++ List.map opEntry (op :: ops)⟩
    rw [ih (fun o ho => h o (List.mem_cons_of_mem _ ho))]
    simp

/-- The headers issued by the serialization loop are exactly the
accumulated entries' metadata, in order: each entry is consumed exactly
once. -/
theorem cpioOps_headers (entries : List PkgEntryM) :
    (cpioOps entries).filterMap
        (fun cop => match cop with | COp.header e => some e | COp.body _ => none) =
      entries.map fun pe => pe.entry := by
  induction entries with
  | nil => rfl
  | cons pe rest ih =>
    have hsplit : cpioOps (pe :: rest) =
        (COp.header pe.entry :: (if pe.data = [] then [] else [COp.body pe.data])) ++
          cpioOps rest := by
      simp [cpioOps]
    rw [hsplit, List.filterMap_append, ih, List.filterMap_cons]
    by_cases h : pe.data = [] <;> simp [h]

end pkg

/-- Claim C7: payload location — `extract_payload` iterates the outer
container's entries in order and returns the bytes of the first entry
whose name is exactly `"Payload"` or ends with `"/Payload"`; when the
entries are exhausted without a match it fails with the missing-payload
error, and `PkgReader::open` then yields no entries. -/
theorem C7_payload_location (xz : pbzx.XZ) (cpio : pkg.CpioC) (xar : pkg.XarC) :
    (∀ entries : List pkg.XarEntryM,
      pkg.extract_payload entries =
        match entries.find? pkg.isPayloadName with
        | some e => .ok e.data
        | none => .error Error.missingPayload) ∧
    (∀ pkgBytes entries, xar.read pkgBytes = some entries →
      entries.find? pkg.isPayloadName = none →
      pkg.pkgOpen xz cpio xar pkgBytes = .err .missingPayload) := by
  constructor
  · exact pkg.extract_payload_eq_find
  · intro pkgBytes entries hread hfind
    have h : pkg.extract_payload entries = .error Error.missingPayload := by
      rw [pkg.extract_payload_eq_find entries, hfind]
    simp only [pkg.pkgOpen, hread, h]

/-- Witness for C7 on a container listing no entries. -/
theorem C7_payload_location_witness :
    pkg.emptyXarInstance.read [] = some [] ∧
      ([] : List pkg.XarEntryM).find? pkg.isPayloadName = none ∧
      pkg.pkgOpen pbzx.idXZ pkg.c2CpioInstance pkg.emptyXarInstance [] =
        .err .missingPayload :=
  ⟨rfl, rfl,
    (C7_payload_location pbzx.idXZ pkg.c2CpioInstance pkg.emptyXarInstance).2 [] [] rfl rfl⟩

/-- Claim C8: entry lifecycle and ordering — valid `add_*` calls append
their records to an ordered list, insertion order is preserved, and the
serialization loop consumes each entry exactly once, emitting one header
per entry (plus one body write exactly when the entry's data is
nonempty), with the header sequence in insertion order. -/
theorem C8_entry_order_and_serialization (ops : List pkg.AddOp)
    (h : ∀ op ∈ ops, pkg.opValid op = true) :
    pkg.applyAdds ops pkg.PkgWriter.new = .ok ⟨ops.map pkg.opEntry⟩ ∧
    (pkg.cpioOps (ops.map pkg.opEntry)).filterMap
        (fun cop => match cop with
          | pkg.COp.header e => some e
          | pkg.COp.body _ => none) =
      (ops.map pkg.opEntry).map (fun pe => pe.entry) ∧
    ∀ pe ∈ ops.map pkg.opEntry,
      pkg.cpioOps [pe] =
        pkg.COp.header pe.entry ::
          (if pe.data = [] then [] else [pkg.COp.body pe.data]) := by
  refine ⟨?_, pkg.cpioOps_headers _, ?_⟩
  · simpa using pkg.applyAdds_ok ops h pkg.PkgWriter.new
  · intro pe _
    simp [pkg.cpioOps]

/-- Witness for C8 on a file, a directory and a symlink. -/
theorem C8_entry_order_and_serialization_witness :
    (∀ op ∈ [pkg.AddOp.file 1 "f" [7], pkg.AddOp.directory 2 "d",
        pkg.AddOp.symlink 3 "s" "t"], pkg.opValid op = true) ∧
      pkg.applyAdds [pkg.AddOp.file 1 "f" [7], pkg.AddOp.directory 2 "d",
          pkg.AddOp.symlink 3 "s" "t"] pkg.PkgWriter.new =
        .ok ⟨[pkg.AddOp.file 1 "f" [7], pkg.AddOp.directory 2 "d",
          pkg.AddOp.symlink 3 "s" "t"].map pkg.opEntry⟩ :=
  ⟨by decide,
    (C8_entry_order_and_serialization
      [pkg.AddOp.file 1 "f" [7], pkg.AddOp.directory 2 "d",
        pkg.AddOp.symlink 3 "s" "t"] (by decide)).1⟩

/-- Claim C9: write leaves the writer intact — `write` and `write_to_vec`
take the writer by shared reference (modelled as a call returning the
untouched receiver), so after either call the writer holds the same
entries in the same order and a second call serializes the same package
again. -/
theorem C9_write_shared_receiver (xz : pbzx.XZ) (cpio : pkg.CpioC) (xar : pkg.XarC)
    (now : Nat) (w : pkg.PkgWriter) :
    (pkg.write_to_vec_call xz cpio xar now w).2 = w ∧
    (pkg.write_call xz cpio xar now w).2 = w ∧
    (pkg.write_to_vec_call xz cpio xar now
        ((pkg.write_to_vec_call xz cpio xar now w).2)).1 =
      (pkg.write_to_vec_call xz cpio xar now w).1 ∧
    (pkg.write_call xz cpio xar now ((pkg.write_call xz cpio xar now w).2)).1 =
      (pkg.write_call xz cpio xar now w).1 :=
  ⟨rfl, rfl, rfl, rfl⟩

/-- Claim C10: default entry metadata of the four `add_*` builders. -/
theorem C10_default_entry_metadata :
    (∀ (path : String) (data : List Nat) (now : Nat) (w : pkg.PkgWriter),
      pkg.hasNulByte path = false →
      ∃ pe, pkg.add_file path data now w = .ok ⟨w.entries ++ [pe]⟩ ∧
        pe.entry.pathname = path ∧ pe.entry.ftype = .regularFile ∧
        pe.entry.perm = 0o644 ∧ pe.entry.size = (data.length : Int) ∧
        pe.data = data) ∧
    (∀ (path : String) (now : Nat) (w : pkg.PkgWriter),
      pkg.hasNulByte path = false →
      ∃ pe, pkg.add_directory path now w = .ok ⟨w.entries ++ [pe]⟩ ∧
        pe.entry.pathname = path ∧ pe.entry.ftype = .directory ∧
        pe.entry.perm = 0o755 ∧ pe.entry.size = 0 ∧ pe.data = []) ∧
    (∀ (path target : String) (now : Nat) (w : pkg.PkgWriter),
      pkg.hasNulByte path = false → pkg.hasNulByte target = false →
      ∃ pe, pkg.add_symlink path target now w = .ok ⟨w.entries ++ [pe]⟩ ∧
        pe.entry.pathname = path ∧ pe.entry.ftype = .symbolicLink ∧
        pe.entry.perm = 0o777 ∧ pe.entry.size = 0 ∧ pe.data = [] ∧
        pe.entry.symlink = some target) ∧
    (∀ (path : String) (data : List Nat) (perm : Nat) (now : Nat) (w : pkg.PkgWriter),
      pkg.hasNulByte path = false →
      ∃ pe, pkg.add_file_with_perm path data perm now w = .ok ⟨w.entries ++ [pe]⟩ ∧
        pe.entry.pathname = path ∧ pe.entry.ftype = .regularFile ∧
        pe.entry.perm = perm ∧ pe.entry.size = (data.length : Int) ∧
        pe.data = data) := by
  refine ⟨?_, ?_, ?_, ?_⟩
  · intro path data now w h
    refine ⟨⟨⟨path, .regularFile, (data.length : Int), 0o644, now, none⟩, data⟩,
      ?_, rfl, rfl, rfl, rfl, rfl⟩
    simp [pkg.add_file, h]
  · intro path now w h
    refine ⟨⟨⟨path, .directory, 0, 0o755, now, none⟩, []⟩, ?_, rfl, rfl, rfl, rfl, rfl⟩
    simp [pkg.add_directory, h]
  · intro path target now w h h2
    refine ⟨⟨⟨path, .symbolicLink, 0, 0o777, now, some target⟩, []⟩,
      ?_, rfl, rfl, rfl, rfl, rfl, rfl⟩
    simp [pkg.add_symlink, h, h2]
  · intro path data perm now w h
    refine ⟨⟨⟨path, .regularFile, (data.length : Int), perm, now, none⟩, data⟩,
      ?_, rfl, rfl, rfl, rfl, rfl⟩
    simp [pkg.add_file_with_perm, h]

/-- Claim C2: pipeline round trip — building a package with
`file("a/b.txt", "hi")`, `directory("a/c")`,
`file_with_perm("a/d", "bin", 0o755)` in that order, writing it, and
reading the bytes back yields exactly those 3 entries in the same order
with matching path, kind, data and permission.  The external CPIO and XAR
engines are assumed, at their section-6 collaborator interface, to read
back what they wrote for the data involved; the XZ collaborator satisfies
its round-trip law. -/
theorem C2_pipeline_roundtrip (xz : pbzx.XZ) (cpio : pkg.CpioC) (xar : pkg.XarC)
    (n1 n2 n3 nowW : Nat)
    (hxz : ∀ l, xz.decomp (xz.comp l) = some l)
    (hcpio : cpio.read (cpio.writeOps (pkg.cpioOps ((pkg.c2Ops n1 n2 n3).map pkg.opEntry))) =
      some ((pkg.c2Ops n1 n2 n3).map pkg.opEntry))
    (hcap : (cpio.writeOps (pkg.cpioOps ((pkg.c2Ops n1 n2 n3).map pkg.opEntry))).length ≤
      64 * 1024 * 1024)
    (hxar : ∀ b, xar.read (xar.write [pkg.payloadXarEntry nowW b]) =
      some [pkg.payloadXarEntry nowW b])
    (hxarCap : ∀ b, (xar.write [pkg.payloadXarEntry nowW b]).length ≤ b.length + 4096) :
    ∃ w pkgBytes,
      pkg.applyAdds (pkg.c2Ops n1 n2 n3) pkg.PkgWriter.new = .ok w ∧
      pkg.write_to_vec xz cpio xar nowW w = .ok pkgBytes ∧
      pkg.pkgOpen xz cpio xar pkgBytes = .ok w.entries ∧
      w.entries.length = 3 ∧
      w.entries.map (fun pe => pe.entry.pathname) = ["a/b.txt", "a/c", "a/d"] ∧
      w.entries.map (fun pe => pe.entry.ftype) =
        [.regularFile, .directory, .regularFile] ∧
      w.entries.map (fun pe => pe.data) = [[104, 105], [], [98, 105, 110]] ∧
      w.entries.map (fun pe => pe.entry.perm) = [0o644, 0o755, 0o755] := by
  have hvalid : ∀ op ∈ pkg.c2Ops n1 n2 n3, pkg.opValid op = true := by
    intro op hop
    simp only [pkg.c2Ops, List.mem_cons, List.not_mem_nil, or_false] at hop
    rcases hop with rfl | rfl | rfl <;> rfl
  have hadds : pkg.applyAdds (pkg.c2Ops n1 n2 n3) pkg.PkgWriter.new =
      .ok ⟨(pkg.c2Ops n1 n2 n3).map pkg.opEntry⟩ := by
    simpa using pkg.applyAdds_ok (pkg.c2Ops n1 n2 n3) hvalid pkg.PkgWriter.new
  refine ⟨⟨(pkg.c2Ops n1 n2 n3).map pkg.opEntry⟩, ?_⟩
  have hblob : pkg.build_cpio cpio ⟨(pkg.c2Ops n1 n2 n3).map pkg.opEntry⟩ =
      .ok (cpio.writeOps (pkg.cpioOps ((pkg.c2Ops n1 n2 n3).map pkg.opEntry))) := by
    unfold pkg.build_cpio
    rw [if_pos hcap]
  have hblen : 17 * (cpio.writeOps (pkg.cpioOps
      ((pkg.c2Ops n1 n2 n3).map pkg.opEntry))).length + 12 < pbzx.U64_MOD := by
    unfold pbzx.U64_MOD
    omega
  have hcomp := pbzx.compress_eq_mkStream xz
    (cpio.writeOps (pkg.cpioOps ((pkg.c2Ops n1 n2 n3).map pkg.opEntry)))
    pbzx.DEFAULT_CHUNK_SIZE (by decide)
  have hpayload : pkg.build_pbzx_payload xz cpio ⟨(pkg.c2Ops n1 n2 n3).map pkg.opEntry⟩ =
      .ok (pbzx.mkStream pbzx.DEFAULT_CHUNK_SIZE (pbzx.compChunks xz pbzx.DEFAULT_CHUNK_SIZE
        (cpio.writeOps (pkg.cpioOps ((pkg.c2Ops n1 n2 n3).map pkg.opEntry))))) := by
    unfold pkg.build_pbzx_payload pbzx.compress
    rw [hblob]
    show pbzx.compress_with_chunk_size xz
      (cpio.writeOps (pkg.cpioOps ((pkg.c2Ops n1 n2 n3).map pkg.opEntry)))
      pbzx.DEFAULT_CHUNK_SIZE = _
    exact hcomp
  have hxarblob : pkg.build_xar_bytes xar nowW
      (pbzx.mkStream pbzx.DEFAULT_CHUNK_SIZE (pbzx.compChunks xz pbzx.DEFAULT_CHUNK_SIZE
        (cpio.writeOps (pkg.cpioOps ((pkg.c2Ops n1 n2 n3).map pkg.opEntry))))) =
      .ok (xar.write [pkg.payloadXarEntry nowW
        (pbzx.mkStream pbzx.DEFAULT_CHUNK_SIZE (pbzx.compChunks xz pbzx.DEFAULT_CHUNK_SIZE
          (cpio.writeOps (pkg.cpioOps ((pkg.c2Ops n1 n2 n3).map pkg.opEntry)))))]) := by
    unfold pkg.build_xar_bytes
    rw [if_pos (hxarCap _)]
  refine ⟨xar.write [pkg.payloadXarEntry nowW
    (pbzx.mkStream pbzx.DEFAULT_CHUNK_SIZE (pbzx.compChunks xz pbzx.DEFAULT_CHUNK_SIZE
      (cpio.writeOps (pkg.cpioOps ((pkg.c2Ops n1 n2 n3).map pkg.opEntry)))))],
    hadds, ?_, ?_, rfl, rfl, rfl, rfl, rfl⟩
  · unfold pkg.write_to_vec
    rw [hpayload]
    show pkg.build_xar_bytes xar nowW _ = _
    rw [hxarblob]
  · have hdec := pbzx.decompress_compChunks xz hxz
      (cpio.writeOps (pkg.cpioOps ((pkg.c2Ops n1 n2 n3).map pkg.opEntry)))
      pbzx.DEFAULT_CHUNK_SIZE (by decide) hblen
    have hextract : pkg.extract_payload [pkg.payloadXarEntry nowW
        (pbzx.mkStream pbzx.DEFAULT_CHUNK_SIZE (pbzx.compChunks xz pbzx.DEFAULT_CHUNK_SIZE
          (cpio.writeOps (pkg.cpioOps ((pkg.c2Ops n1 n2 n3).map pkg.opEntry)))))] =
        .ok (pbzx.mkStream pbzx.DEFAULT_CHUNK_SIZE (pbzx.compChunks xz pbzx.DEFAULT_CHUNK_SIZE
          (cpio.writeOps (pkg.cpioOps ((pkg.c2Ops n1 n2 n3).map pkg.opEntry))))) := by
      rw [pkg.extract_payload, if_pos (by rfl)]
      rfl
    simp only [pkg.pkgOpen, hxar, hextract, hdec, hcpio]

/-- Witness for C2 at concrete collaborator instances and time `0`. -/
theorem C2_pipeline_roundtrip_witness :
    (pkg.c2CpioInstance.read (pkg.c2CpioInstance.writeOps
        (pkg.cpioOps ((pkg.c2Ops 0 0 0).map pkg.opEntry))) =
      some ((pkg.c2Ops 0 0 0).map pkg.opEntry)) ∧
    (∀ b, pkg.c2XarInstance.read (pkg.c2XarInstance.write [pkg.payloadXarEntry 0 b]) =
      some [pkg.payloadXarEntry 0 b]) ∧
    ∃ w pkgBytes,
      pkg.applyAdds (pkg.c2Ops 0 0 0) pkg.PkgWriter.new = .ok w ∧
      pkg.write_to_vec pbzx.idXZ pkg.c2CpioInstance pkg.c2XarInstance 0 w = .ok pkgBytes ∧
      pkg.pkgOpen pbzx.idXZ pkg.c2CpioInstance pkg.c2XarInstance pkgBytes = .ok w.entries ∧
      w.entries.length = 3 ∧
      w.entries.map (fun pe => pe.entry.pathname) = ["a/b.txt", "a/c", "a/d"] ∧
      w.entries.map (fun pe => pe.entry.ftype) =
        [.regularFile, .directory, .regularFile] ∧
      w.entries.map (fun pe => pe.data) = [[104, 105], [], [98, 105, 110]] ∧
      w.entries.map (fun pe => pe.entry.perm) = [0o644, 0o755, 0o755] :=
  ⟨rfl, fun _ => rfl,
    C2_pipeline_roundtrip pbzx.idXZ pkg.c2CpioInstance pkg.c2XarInstance 0 0 0 0
      (fun _ => rfl) rfl (by decide) (fun _ => rfl) (fun b => Nat.le_add_right _ _)⟩

/-- Witness for C10 instantiating each builder. -/
theorem C10_default_entry_metadata_witness :
    pkg.hasNulByte "a" = false ∧
      (∃ pe, pkg.add_file "a" [1] 0 pkg.PkgWriter.new =
          .ok ⟨pkg.PkgWriter.new.entries ++ [pe]⟩ ∧
        pe.entry.pathname = "a" ∧ pe.entry.ftype = .regularFile ∧
        pe.entry.perm = 0o644 ∧ pe.entry.size = (([1] : List Nat).length : Int) ∧
        pe.data = [1]) ∧
      (∃ pe, pkg.add_directory "a" 0 pkg.PkgWriter.new =
          .ok ⟨pkg.PkgWriter.new.entries ++ [pe]⟩ ∧
        pe.entry.pathname = "a" ∧ pe.entry.ftype = .directory ∧
        pe.entry.perm = 0o755 ∧ pe.entry.size = 0 ∧ pe.data = []) ∧
      (∃ pe, pkg.add_symlink "a" "b" 0 pkg.PkgWriter.new =
          .ok ⟨pkg.PkgWriter.new.entries ++ [pe]⟩ ∧
        pe.entry.pathname = "a" ∧ pe.entry.ftype = .symbolicLink ∧
        pe.entry.perm = 0o777 ∧ pe.entry.size = 0 ∧ pe.data = [] ∧
        pe.entry.symlink = some "b") ∧
      (∃ pe, pkg.add_file_with_perm "a" [1] 0o700 0 pkg.PkgWriter.new =
          .ok ⟨pkg.PkgWriter.new.entries ++ [pe]⟩ ∧
        pe.entry.pathname = "a" ∧ pe.entry.ftype = .regularFile ∧
        pe.entry.perm = 0o700 ∧ pe.entry.size = (([1] : List Nat).length : Int) ∧
        pe.data = [1]) :=
  ⟨by decide,
    C10_default_entry_metadata.1 "a" [1] 0 pkg.PkgWriter.new (by decide),
    C10_default_entry_metadata.2.1 "a" 0 pkg.PkgWriter.new (by decide),
    C10_default_entry_metadata.2.2.1 "a" "b" 0 pkg.PkgWriter.new (by decide) (by decide),
    C10_default_entry_metadata.2.2.2 "a" [1] 0o700 0 pkg.PkgWriter.new (by decide)⟩

end LibarchiveRs
